import Mathlib

/-!
Verification development for a single-tool command bridge (src/main.py):
subprocess execution with working-directory validation, multi-encoding
output decoding with ordered fallback, whitespace normalization for
single-line status messages, and assembly of a two-field result record.

Python strings are modelled as lists of Unicode scalar values (`PyStr`),
byte strings as lists of naturals, and the outside world (the filesystem
check and the subprocess spawn) as an explicit oracle structure, so that
every function of the program becomes a total Lean function.
-/

namespace CmdExec

/-- A Python `str` value: a sequence of Unicode scalar values. -/
abbrev PyStr := List Char

/-- CPython's `Py_UNICODE_ISSPACE` predicate: the whitespace set used both by
`str.strip()` and by the character class of whitespace in the `re` module on
`str` patterns (both consult the same character-database flag). -/
def isPySpace (c : Char) : Bool :=
  let v := c.toNat
  (decide (9 ≤ v) && decide (v ≤ 13)) || (decide (28 ≤ v) && decide (v ≤ 31)) ||
  decide (v = 32) || decide (v = 0x85) || decide (v = 0xA0) || decide (v = 0x1680) ||
  (decide (0x2000 ≤ v) && decide (v ≤ 0x200A)) || decide (v = 0x2028) ||
  decide (v = 0x2029) || decide (v = 0x202F) || decide (v = 0x205F) || decide (v = 0x3000)

/-- Python `text.replace(chr(13) ++ chr(10), " ")`: left-to-right,
non-overlapping replacement of the two-character line break by one space. -/
def replaceCRLF : PyStr → PyStr
  | [] => []
  | [c] => [c]
  | c :: d :: rest =>
    if c = '\r' ∧ d = '\n' then ' ' :: replaceCRLF rest
    else c :: replaceCRLF (d :: rest)

/-- Python `text.replace(chr(10), " ")`: every line feed becomes one space. -/
def replaceLF (s : PyStr) : PyStr :=
  s.map (fun c => if c = '\n' then ' ' else c)

/-- The worker of the `re.sub` whitespace collapse: the flag records whether
the scanner stands inside a whitespace run whose single replacement space has
already been emitted. -/
def collapseAux : Bool → PyStr → PyStr
  | _, [] => []
  | prevWS, c :: cs =>
    if isPySpace c then
      if prevWS then collapseAux true cs
      else ' ' :: collapseAux true cs
    else c :: collapseAux false cs

/-- Python `re.sub` of one-or-more whitespace by a single space: every maximal
run of whitespace characters becomes exactly one space. -/
def collapseWS (s : PyStr) : PyStr :=
  collapseAux false s

/-- Removal of trailing whitespace, the right half of Python `str.strip()`. -/
def rstripFn : PyStr → PyStr
  | [] => []
  | c :: cs =>
    match rstripFn cs with
    | [] => if isPySpace c then [] else [c]
    | r => c :: r

/-- Python `str.strip()` with no argument: drop leading and trailing
whitespace characters. -/
def pyStrip (s : PyStr) : PyStr :=
  rstripFn (s.dropWhile isPySpace)

/-- src/main.py, `process_output_for_message`: empty text is returned as is;
otherwise both line-break forms are replaced by spaces, every whitespace run
is collapsed to a single space, and the ends are stripped. -/
def process_output_for_message (text : PyStr) : PyStr :=
  if text = [] then []
  else pyStrip (collapseWS (replaceLF (replaceCRLF text)))

/-! ## Encodings and the fallback decoder -/

/-- U+FFFD, the replacement marker substituted by lossy decoding. -/
def replacementChar : Char := '�'

/-- One candidate text encoding, as the program observes it through
`bytes.decode`: its name (as passed to `decode` and shown in diagnostics), a
strict decode that rejects invalid byte sequences, and a lossy decode that
substitutes `replacementChar` for them and never fails. -/
structure Codec where
  name : PyStr
  strict : List Nat → Option PyStr
  repl : List Nat → PyStr

/-- Whether a byte is a UTF-8 continuation byte. -/
def utf8Cont (b : Nat) : Bool :=
  decide (0x80 ≤ b) && decide (b ≤ 0xBF)

/-- One step of the UTF-8 decoder on lead byte `b` followed by `rest`:
`(some c, k)` decodes a scalar value consuming `1 + k` bytes; `(none, k)`
is an error whose maximal subpart (the longest valid prefix of a sequence)
consumes `1 + k` bytes — the granularity at which CPython substitutes one
replacement marker per error. -/
def utf8Step (b : Nat) (rest : List Nat) : Option Char × Nat :=
  if b < 0x80 then (some (Char.ofNat b), 0)
  else if b < 0xC2 then (none, 0)
  else if b ≤ 0xDF then
    match rest with
    | b2 :: _ =>
      if utf8Cont b2 then (some (Char.ofNat ((b - 0xC0) * 0x40 + (b2 - 0x80))), 1)
      else (none, 0)
    | [] => (none, 0)
  else if b ≤ 0xEF then
    let lo := if b = 0xE0 then 0xA0 else 0x80
    let hi := if b = 0xED then 0x9F else 0xBF
    match rest with
    | b2 :: rest2 =>
      if decide (lo ≤ b2) && decide (b2 ≤ hi) then
        match rest2 with
        | b3 :: _ =>
          if utf8Cont b3 then
            (some (Char.ofNat ((b - 0xE0) * 0x1000 + (b2 - 0x80) * 0x40 + (b3 - 0x80))), 2)
          else (none, 1)
        | [] => (none, 1)
      else (none, 0)
    | [] => (none, 0)
  else if b ≤ 0xF4 then
    let lo := if b = 0xF0 then 0x90 else 0x80
    let hi := if b = 0xF4 then 0x8F else 0xBF
    match rest with
    | b2 :: rest2 =>
      if decide (lo ≤ b2) && decide (b2 ≤ hi) then
        match rest2 with
        | b3 :: rest3 =>
          if utf8Cont b3 then
            match rest3 with
            | b4 :: _ =>
              if utf8Cont b4 then
                (some (Char.ofNat ((b - 0xF0) * 0x40000 + (b2 - 0x80) * 0x1000 +
                  (b3 - 0x80) * 0x40 + (b4 - 0x80))), 3)
              else (none, 2)
            | [] => (none, 2)
          else (none, 1)
        | [] => (none, 1)
      else (none, 0)
    | [] => (none, 0)
  else (none, 0)

/-- Fueled UTF-8 decoding loop. Each step consumes at least one byte, so fuel
equal to the byte count always suffices; in strict mode any error aborts, in
replacement mode each error contributes one `replacementChar`. -/
def utf8DecAux (replMode : Bool) : Nat → List Nat → Option PyStr
  | _, [] => some []
  | 0, _ :: _ => none
  | fuel + 1, b :: rest =>
    match utf8Step b rest with
    | (some c, k) =>
      match utf8DecAux replMode fuel (rest.drop k) with
      | some s => some (c :: s)
      | none => none
    | (none, k) =>
      if replMode then
        match utf8DecAux replMode fuel (rest.drop k) with
        | some s => some (replacementChar :: s)
        | none => none
      else none

/-- Python `bs.decode(utf8, strict)`. -/
def utf8Strict (bs : List Nat) : Option PyStr :=
  utf8DecAux false bs.length bs

/-- Python `bs.decode(utf8, replace)`; total since replacement mode never
errors (the fuel equal to the byte count always suffices). -/
def utf8Repl (bs : List Nat) : PyStr :=
  (utf8DecAux true bs.length bs).getD []

/-- The `utf-8` candidate encoding. -/
def utf8C : Codec :=
  { name := "utf-8".data, strict := utf8Strict, repl := utf8Repl }

/-- The `latin-1` candidate encoding: every byte decodes to the scalar value
of the same number, so neither mode can fail and no replacement marker is
ever produced. -/
def latin1C : Codec :=
  { name := "latin-1".data
    strict := fun bs => some (bs.map Char.ofNat)
    repl := fun bs => bs.map Char.ofNat }

/-- A lowercase hexadecimal digit. -/
def hexDigit (n : Nat) : Char :=
  if n < 10 then Char.ofNat (48 + n) else Char.ofNat (87 + n)

/-- One byte of Python's `repr` of a `bytes` object, given the chosen quote
character. -/
def pyByteEsc (q : Char) (b : Nat) : PyStr :=
  if b = 0x5C then ['\\', '\\']
  else if Char.ofNat b = q then ['\\', q]
  else if b = 9 then ['\\', 't']
  else if b = 10 then ['\\', 'n']
  else if b = 13 then ['\\', 'r']
  else if decide (0x20 ≤ b) && decide (b ≤ 0x7E) then [Char.ofNat b]
  else ['\\', 'x', hexDigit (b / 16), hexDigit (b % 16)]

/-- Python's `repr` of a `bytes` object (what an f-string interpolates for a
`bytes` value): a `b`-prefixed quoted literal, quoted with a double quote
exactly when the bytes hold a single quote but no double quote. -/
def pyBytesRepr (bs : List Nat) : PyStr :=
  let q : Char := if 0x27 ∈ bs ∧ ¬ (0x22 ∈ bs) then '"' else '\''
  'b' :: q :: (bs.map (pyByteEsc q)).flatten ++ [q]

/-- Python `", ".join`. -/
def joinComma : List PyStr → PyStr
  | [] => []
  | [s] => s
  | s :: rest => s ++ ", ".data ++ joinComma rest

/-- The terminal diagnostic of `decode_with_fallback`: the attempted encoding
names and the `repr` of the first 100 raw bytes. -/
def decodeFailMsg (byteContent : List Nat) (encodings : List Codec) : PyStr :=
  "解码失败，尝试了 ".data ++ joinComma (encodings.map Codec.name) ++
  "。原始字节前100: ".data ++ pyBytesRepr (byteContent.take 100) ++ "...".data

/-- The decoding loop of `decode_with_fallback` (src/main.py lines 33-48),
with `i` the position of the head candidate in the original list: position 0
decodes strictly (an invalid sequence rejects the candidate), later positions
decode lossily and reject the candidate when the replacement markers exceed a
tenth of the decoded text (the float comparison of a count against a tenth of
the length is exact, so it is written over naturals). `none` means every
candidate was exhausted. -/
def tryEncodings (bs : List Nat) : List Codec → Nat → Option PyStr
  | [], _ => none
  | e :: rest, i =>
    if i = 0 then
      match e.strict bs with
      | none => tryEncodings bs rest (i + 1)
      | some d => some d
    else
      let d := e.repl bs
      if replacementChar ∈ d ∧ 10 * d.count replacementChar > d.length then
        tryEncodings bs rest (i + 1)
      else some d

/-- src/main.py, `decode_with_fallback`: empty bytes decode to the empty
string; otherwise the candidates are tried in order and exhaustion yields the
diagnostic string. Total by construction — the embedding of a function that
never raises. -/
def decode_with_fallback (byteContent : List Nat) (encodings : List Codec) : PyStr :=
  if byteContent = [] then []
  else
    match tryEncodings byteContent encodings 0 with
    | some d => d
    | none => decodeFailMsg byteContent encodings

/-! ## The executor -/

/-- The ASCII fragment of Python `str.lower()` (the program only compares the
lowercased text against ASCII prefixes; lowercase mappings of characters
outside ASCII do not produce ASCII letters for the characters this program
encounters, so they are left fixed here). -/
def pyLowerChar (c : Char) : Char :=
  if decide ('A' ≤ c) && decide (c ≤ 'Z') then Char.ofNat (c.toNat + 32) else c

/-- src/main.py line 82-83: `cmd.strip().lower()` begins with a known
HTTP-client invocation. -/
def isCurlCommand (cmd : PyStr) : Bool :=
  let commandLower := (pyStrip cmd).map pyLowerChar
  List.isPrefixOf "curl ".data commandLower ||
    List.isPrefixOf "wsl curl ".data commandLower

/-- The candidate order used for stdout (src/main.py lines 82-86): the
universal encoding first for HTTP-client commands, the locale encoding
(`CMD_ENCODING`, the GBK code page, passed in as `gbkC`) first otherwise. -/
def stdoutEncodings (gbkC : Codec) (cmd : PyStr) : List Codec :=
  if isCurlCommand cmd then [utf8C, gbkC, latin1C] else [gbkC, utf8C, latin1C]

/-- The candidate order used for stderr (src/main.py line 80): always
locale-first. -/
def stderrEncodings (gbkC : Codec) : List Codec :=
  [gbkC, utf8C, latin1C]

/-- The outcome of `subprocess.run` as the program distinguishes it: a
completed child with captured streams and exit code, or one of the three
exception classes the caller catches. -/
inductive SpawnResult where
  | completed (stdoutBytes stderrBytes : List Nat) (returncode : Int)
  | fileNotFound
  | osError (msg : PyStr)
  | unexpectedError (msg : PyStr)
deriving DecidableEq

/-- The outside world as the executor consults it: the `os.path.isdir` test
and the `subprocess.run` spawn (argument vector and working directory). -/
structure Sys where
  isdir : PyStr → Bool
  run : List PyStr → PyStr → SpawnResult

/-- Python `" ".join`. -/
def joinSpace : List PyStr → PyStr
  | [] => []
  | [s] => s
  | s :: rest => s ++ ' ' :: joinSpace rest

/-- Python `" ".join(filter(None, parts)).strip()` as used to assemble the
final message. -/
def assembleMessage (parts : List PyStr) : PyStr :=
  pyStrip (joinSpace (parts.filter (fun p => ¬ p = [])))

/-- The fixed marker opening every success message. -/
def successMarker : PyStr := "命令执行成功...".data

/-- The fixed marker opening every failure message. -/
def failureMarker : PyStr := "命令执行失败...".data

/-- The message of the invalid-working-directory branch. -/
def prepFailMsg (workdir : PyStr) : PyStr :=
  "命令准备失败: 工作目录 '".data ++ workdir ++ "' 无效！".data

/-- src/main.py, `execute_command`: validate the working directory, spawn
`cmd /c` through the oracle, decode and strip both streams, and assemble the
two-field result dict; every exception branch also ends in a dict. Logging
calls, which do not affect the result, are not modelled. -/
def execute_command (sys : Sys) (gbkC : Codec) (cmd workdir : PyStr) :
    List (String × PyStr) :=
  if sys.isdir workdir = false then
    [("message", prepFailMsg workdir), ("log", "命令准备失败...".data)]
  else
    match sys.run ["cmd".data, "/c".data, cmd] workdir with
    | .completed stdoutBytes stderrBytes returncode =>
      let stderr := pyStrip (decode_with_fallback stderrBytes (stderrEncodings gbkC))
      let stdout := pyStrip (decode_with_fallback stdoutBytes (stdoutEncodings gbkC cmd))
      if returncode = 0 then
        let processedStdout := process_output_for_message stdout
        let messageParts := [successMarker] ++
          (if ¬ processedStdout = [] then [processedStdout] else [])
        [("message", assembleMessage messageParts), ("log", "命令执行成功".data)]
      else
        let processedStderr := process_output_for_message stderr
        let messageParts := [failureMarker] ++
          (if ¬ processedStderr = [] then [processedStderr] else [])
        [("message", assembleMessage messageParts),
          ("log", "命令执行失败... 返回码: ".data ++ (toString returncode).data)]
    | .fileNotFound =>
      [("message", "命令执行失败: 找不到 'cmd' 命令！请检查系统 PATH 环境变量。".data),
        ("log", "命令执行失败... 内部错误".data)]
    | .osError e =>
      [("message", "命令执行失败: OS 错误 - ".data ++ e),
        ("log", "命令执行失败... OS 错误".data)]
    | .unexpectedError e =>
      [("message", "命令执行失败: 发生意外错误 - ".data ++ e),
        ("log", "命令执行失败... 意外错误".data)]

/-! ## The tool wrapper -/

/-- The quote Python `repr` chooses for a `str`: a double quote exactly when
the string holds a single quote but no double quote. -/
def pyReprQuote (s : PyStr) : Char :=
  if '\'' ∈ s ∧ ¬ ('"' ∈ s) then '"' else '\''

/-- One character of Python `repr` of a `str`, given the chosen quote.
Characters outside the escaped set are rendered literally; the model treats
every character of scalar value at least 0x20 other than 0x7F as printable,
which agrees with CPython on every character the program's strings hold. -/
def pyCharEsc (q : Char) (c : Char) : PyStr :=
  if c = '\\' then ['\\', '\\']
  else if c = q then ['\\', q]
  else if c = '\t' then ['\\', 't']
  else if c = '\n' then ['\\', 'n']
  else if c = '\r' then ['\\', 'r']
  else if decide (c.toNat < 0x20) || decide (c.toNat = 0x7F) then
    ['\\', 'x', hexDigit (c.toNat / 16), hexDigit (c.toNat % 16)]
  else [c]

/-- Python `repr` of a `str`. -/
def pyRepr (s : PyStr) : PyStr :=
  let q := pyReprQuote s
  q :: (s.map (pyCharEsc q)).flatten ++ [q]

/-- src/main.py lines 153-158: the `key='value'` rendering of the result
dict returned by the tool (`.get` with an empty-string default, then `repr`
of both fields). -/
def renderResult (resultDict : List (String × PyStr)) : PyStr :=
  "message=".data ++ pyRepr ((resultDict.lookup "message").getD []) ++
  ", log=".data ++ pyRepr ((resultDict.lookup "log").getD [])

/-- src/main.py lines 16: the process-wide default working directory:
`os.getenv` of the sandbox-path variable, with a hard-coded fallback taken
when the variable is unset or empty (Python `or` on a falsy value). -/
def DEFAULT_WORKDIR (sandboxPathEnv : Option PyStr) : PyStr :=
  match sandboxPathEnv with
  | none => "D:\\Sandbox".data
  | some s => if s = [] then "D:\\Sandbox".data else s

/-- src/main.py, `execute`: an omitted or empty `cwd` falls back to the
default working directory (`cwd or DEFAULT_WORKDIR`), and the result dict is
rendered as the `key='value'` string. The rendering in the model cannot
raise, so the formatting fallback branch of the source is unreachable. -/
def execute (sys : Sys) (gbkC : Codec) (sandboxPathEnv : Option PyStr)
    (command : PyStr) (cwd : Option PyStr) : PyStr :=
  let targetCwd :=
    match cwd with
    | none => DEFAULT_WORKDIR sandboxPathEnv
    | some s => if s = [] then DEFAULT_WORKDIR sandboxPathEnv else s
  renderResult (execute_command sys gbkC command targetCwd)

/-- An oracle whose directory test succeeds and whose spawn completes with
stdout bytes of "hi", empty stderr and exit code 0. -/
def sysEcho : Sys := ⟨fun _ => true, fun _ _ => .completed [0x68, 0x69] [] 0⟩

/-- An oracle whose spawn completes with stdout and stderr both the bytes of
"boom" and exit code 1. -/
def sysBoom : Sys :=
  ⟨fun _ => true, fun _ _ => .completed [0x62, 0x6F, 0x6F, 0x6D] [0x62, 0x6F, 0x6F, 0x6D] 1⟩

/-- Like `sysBoom` but with different stdout bytes and the same stderr and
exit code. -/
def sysBoom2 : Sys :=
  ⟨fun _ => true, fun _ _ => .completed [0x7A] [0x62, 0x6F, 0x6F, 0x6D] 1⟩

/-- An oracle for which every directory test fails. -/
def sysNoDir : Sys := ⟨fun _ => false, fun _ _ => .fileNotFound⟩

/-- An oracle for which every directory test fails, with a different spawn
behavior than `sysNoDir`. -/
def sysNoDir2 : Sys := ⟨fun _ => false, fun _ _ => .osError []⟩

/-! ## Properties of the message normalizer -/

/-- Two adjacent characters are never both whitespace. -/
def notAdjWS (a b : Char) : Prop := ¬ (isPySpace a = true ∧ isPySpace b = true)

/-- Every whitespace character of the list is the plain space. -/
def allWSSpace (l : PyStr) : Prop := ∀ c ∈ l, isPySpace c = true → c = ' '

/-- The head, when present, is not whitespace. -/
def headNotWS (l : PyStr) : Prop := ∀ c, l.head? = some c → isPySpace c = false

/-- The last character, when present, is not whitespace. -/
def lastNotWS (l : PyStr) : Prop := ∀ c, l.getLast? = some c → isPySpace c = false

theorem collapseAux_cons_ws_true {c : Char} (h : isPySpace c = true) (cs : PyStr) :
    collapseAux true (c :: cs) = collapseAux true cs := by
  simp [collapseAux, h]

theorem collapseAux_cons_ws_false {c : Char} (h : isPySpace c = true) (cs : PyStr) :
    collapseAux false (c :: cs) = ' ' :: collapseAux true cs := by
  simp [collapseAux, h]

theorem collapseAux_cons_not_ws {c : Char} (h : isPySpace c = false) (flag : Bool)
    (cs : PyStr) : collapseAux flag (c :: cs) = c :: collapseAux false cs := by
  simp [collapseAux, h]

theorem rstripFn_cons_of_eq_nil (cs : PyStr) (h : rstripFn cs = []) (c : Char) :
    rstripFn (c :: cs) = if isPySpace c = true then [] else [c] := by
  rw [rstripFn, h]

theorem rstripFn_cons_of_ne_nil {cs : PyStr} (h : rstripFn cs ≠ []) (c : Char) :
    rstripFn (c :: cs) = c :: rstripFn cs := by
  rw [rstripFn]
  cases hr : rstripFn cs with
  | nil => exact absurd hr h
  | cons d r => exact rfl

theorem allWSSpace_collapseAux (l : PyStr) : ∀ flag, allWSSpace (collapseAux flag l) := by
  induction l with
  | nil => intro flag c hc; simp [collapseAux] at hc
  | cons c cs ih =>
    intro flag
    by_cases h : isPySpace c = true
    · cases flag with
      | true =>
        rw [collapseAux_cons_ws_true h]
        exact ih true
      | false =>
        rw [collapseAux_cons_ws_false h]
        intro x hx hxw
        rcases List.mem_cons.mp hx with rfl | hx
        · rfl
        · exact ih true x hx hxw
    · rw [collapseAux_cons_not_ws (by simpa using h)]
      intro x hx hxw
      rcases List.mem_cons.mp hx with rfl | hx
      · exact absurd hxw (by simpa using h)
      · exact ih false x hx hxw

theorem headNotWS_collapseAux_true (l : PyStr) : headNotWS (collapseAux true l) := by
  induction l with
  | nil => intro c hc; simp [collapseAux] at hc
  | cons c cs ih =>
    by_cases h : isPySpace c = true
    · rw [collapseAux_cons_ws_true h]
      exact ih
    · rw [collapseAux_cons_not_ws (by simpa using h)]
      intro x hx
      rw [List.head?_cons, Option.some.injEq] at hx
      subst hx
      simpa using h

theorem chain'_collapseAux (l : PyStr) : ∀ flag, List.Chain' notAdjWS (collapseAux flag l) := by
  induction l with
  | nil => intro flag; simp [collapseAux]
  | cons c cs ih =>
    intro flag
    by_cases h : isPySpace c = true
    · cases flag with
      | true =>
        rw [collapseAux_cons_ws_true h]
        exact ih true
      | false =>
        rw [collapseAux_cons_ws_false h]
        rw [List.chain'_cons']
        refine ⟨?_, ih true⟩
        intro y hy
        have hns := headNotWS_collapseAux_true cs y hy
        intro hand
        rw [hns] at hand
        exact Bool.false_ne_true hand.2
    · rw [collapseAux_cons_not_ws (by simpa using h)]
      rw [List.chain'_cons']
      refine ⟨?_, ih false⟩
      intro y _ hand
      exact h hand.1

theorem chain'_dropWhile {l : PyStr} (h : List.Chain' notAdjWS l) :
    List.Chain' notAdjWS (l.dropWhile isPySpace) := by
  induction l with
  | nil => simp
  | cons c cs ih =>
    by_cases hc : isPySpace c = true
    · rw [List.dropWhile_cons_of_pos hc]
      exact ih h.tail
    · rwa [List.dropWhile_cons_of_neg (by simpa using hc)]

theorem rstripFn_sublist (l : PyStr) : List.Sublist (rstripFn l) l := by
  induction l with
  | nil => simp [rstripFn]
  | cons c cs ih =>
    by_cases hr : rstripFn cs = []
    · rw [rstripFn_cons_of_eq_nil _ hr]
      by_cases hc : isPySpace c = true
      · simp [hc]
      · simp [hc]
    · rw [rstripFn_cons_of_ne_nil hr]
      exact List.cons_sublist_cons.mpr ih

theorem head?_rstripFn {l : PyStr} {c : Char} (h : (rstripFn l).head? = some c) :
    l.head? = some c := by
  cases l with
  | nil => simp [rstripFn] at h
  | cons a cs =>
    by_cases hr : rstripFn cs = []
    · rw [rstripFn_cons_of_eq_nil _ hr] at h
      by_cases ha : isPySpace a = true
      · simp [ha] at h
      · simp [ha] at h
        simp [h]
    · rw [rstripFn_cons_of_ne_nil hr] at h
      rw [List.head?_cons, Option.some.injEq] at h
      simp [h]

theorem chain'_rstripFn {l : PyStr} (h : List.Chain' notAdjWS l) :
    List.Chain' notAdjWS (rstripFn l) := by
  induction l with
  | nil => simpa using h
  | cons c cs ih =>
    by_cases hr : rstripFn cs = []
    · rw [rstripFn_cons_of_eq_nil _ hr]
      by_cases hc : isPySpace c = true
      · simp [hc]
      · simp [hc]
    · rw [rstripFn_cons_of_ne_nil hr]
      rw [List.chain'_cons']
      refine ⟨?_, ih h.tail⟩
      intro y hy
      have hhead : cs.head? = some y := head?_rstripFn hy
      exact (List.chain'_cons'.mp h).1 y hhead

theorem lastNotWS_rstripFn (l : PyStr) : lastNotWS (rstripFn l) := by
  induction l with
  | nil => intro c hc; simp [rstripFn] at hc
  | cons c cs ih =>
    intro x hx
    by_cases hr : rstripFn cs = []
    · rw [rstripFn_cons_of_eq_nil _ hr] at hx
      by_cases hc : isPySpace c = true
      · simp [hc] at hx
      · simp [hc] at hx
        subst hx
        simpa using hc
    · rw [rstripFn_cons_of_ne_nil hr] at hx
      cases hcs : rstripFn cs with
      | nil => exact absurd hcs hr
      | cons d r =>
        rw [hcs, List.getLast?_cons_cons, ← hcs] at hx
        exact ih x hx

theorem headNotWS_dropWhile (l : PyStr) : headNotWS (l.dropWhile isPySpace) := by
  intro c hc
  have := List.head?_dropWhile_not isPySpace l
  rw [hc] at this
  simpa using this

theorem headNotWS_pyStrip (l : PyStr) : headNotWS (pyStrip l) := by
  intro c hc
  exact headNotWS_dropWhile l c (head?_rstripFn hc)

theorem lastNotWS_pyStrip (l : PyStr) : lastNotWS (pyStrip l) :=
  lastNotWS_rstripFn _

theorem allWSSpace_pyStrip_collapseWS (l : PyStr) : allWSSpace (pyStrip (collapseWS l)) := by
  intro c hc hcw
  have h1 : c ∈ (collapseWS l).dropWhile isPySpace :=
    (rstripFn_sublist _).mem hc
  have h2 : c ∈ collapseWS l := (List.dropWhile_sublist _).mem h1
  exact allWSSpace_collapseAux l false c h2 hcw

theorem chain'_pyStrip_collapseWS (l : PyStr) :
    List.Chain' notAdjWS (pyStrip (collapseWS l)) :=
  chain'_rstripFn (chain'_dropWhile (chain'_collapseAux l false))

theorem replaceCRLF_eq_self {l : PyStr} (h : '\r' ∉ l) : replaceCRLF l = l := by
  induction l with
  | nil => rfl
  | cons c cs ih =>
    cases cs with
    | nil => rfl
    | cons d rest =>
      have hc : ¬ (c = '\r' ∧ d = '\n') := by
        rintro ⟨rfl, -⟩
        exact h (List.mem_cons_self _ _)
      rw [replaceCRLF, if_neg hc]
      have : '\r' ∉ d :: rest := fun hm => h (List.mem_cons_of_mem _ hm)
      rw [ih this]

theorem replaceLF_eq_self {l : PyStr} (h : '\n' ∉ l) : replaceLF l = l := by
  induction l with
  | nil => rfl
  | cons c cs ih =>
    have hc : c ≠ '\n' := fun he => h (he ▸ List.mem_cons_self _ _)
    have : '\n' ∉ cs := fun hm => h (List.mem_cons_of_mem _ hm)
    simp only [replaceLF, List.map_cons, if_neg hc]
    rw [show cs.map (fun c => if c = '\n' then ' ' else c) = replaceLF cs from rfl, ih this]

theorem collapseAux_eq_self (l : PyStr) :
    (List.Chain' notAdjWS l → allWSSpace l → collapseAux false l = l) ∧
      (List.Chain' notAdjWS l → allWSSpace l → headNotWS l → collapseAux true l = l) := by
  induction l with
  | nil => exact ⟨fun _ _ => rfl, fun _ _ _ => rfl⟩
  | cons c cs ih =>
    constructor
    · intro hch hws
      by_cases h : isPySpace c = true
      · rw [collapseAux_cons_ws_false h]
        have hcs : collapseAux true cs = cs := by
          apply ih.2 hch.tail (fun x hx => hws x (List.mem_cons_of_mem _ hx))
          intro y hy
          have := (List.chain'_cons'.mp hch).1 y hy
          unfold notAdjWS at this
          by_contra hyw
          exact this ⟨h, by simpa using hyw⟩
        rw [hcs, hws c (List.mem_cons_self _ _) h]
      · rw [collapseAux_cons_not_ws (by simpa using h)]
        rw [ih.1 hch.tail (fun x hx => hws x (List.mem_cons_of_mem _ hx))]
    · intro hch hws hhd
      have h : isPySpace c = false := hhd c (by rw [List.head?_cons])
      rw [collapseAux_cons_not_ws h]
      rw [ih.1 hch.tail (fun x hx => hws x (List.mem_cons_of_mem _ hx))]

theorem dropWhile_eq_self_of_headNotWS {l : PyStr} (h : headNotWS l) :
    l.dropWhile isPySpace = l := by
  cases l with
  | nil => rfl
  | cons c cs =>
    have := h c (by rw [List.head?_cons])
    rw [List.dropWhile_cons_of_neg (by simp [this])]

theorem rstripFn_eq_self_of_lastNotWS {l : PyStr} (h : lastNotWS l) : rstripFn l = l := by
  induction l with
  | nil => rfl
  | cons c cs ih =>
    cases cs with
    | nil =>
      have := h c (by simp)
      rw [rstripFn_cons_of_eq_nil [] rfl, if_neg (by simp [this])]
    | cons d rest =>
      have hcs : rstripFn (d :: rest) = d :: rest := by
        apply ih
        intro x hx
        apply h
        rw [List.getLast?_cons_cons]
        exact hx
      rw [rstripFn_cons_of_ne_nil (by rw [hcs]; exact List.cons_ne_nil _ _), hcs]

theorem pyStrip_eq_self {l : PyStr} (hh : headNotWS l) (hl : lastNotWS l) :
    pyStrip l = l := by
  unfold pyStrip
  rw [dropWhile_eq_self_of_headNotWS hh]
  exact rstripFn_eq_self_of_lastNotWS hl

/-- The four structural properties of every normalized message: whitespace
characters are plain spaces, no two adjacent characters are both whitespace,
and neither end is whitespace. -/
theorem process_output_props (s : PyStr) :
    allWSSpace (process_output_for_message s) ∧
      List.Chain' notAdjWS (process_output_for_message s) ∧
      headNotWS (process_output_for_message s) ∧
      lastNotWS (process_output_for_message s) := by
  unfold process_output_for_message
  by_cases h : s = []
  · simp only [h, if_true]
    exact ⟨by intro c hc; simp at hc, by simp, by intro c hc; simp at hc,
      by intro c hc; simp at hc⟩
  · simp only [h, if_false]
    exact ⟨allWSSpace_pyStrip_collapseWS _, chain'_pyStrip_collapseWS _,
      headNotWS_pyStrip _, lastNotWS_pyStrip _⟩

theorem process_output_idem (s : PyStr) :
    process_output_for_message (process_output_for_message s) =
      process_output_for_message s := by
  obtain ⟨hws, hch, hhd, hlt⟩ := process_output_props s
  set t := process_output_for_message s with ht
  by_cases hnil : t = []
  · rw [hnil]
    rfl
  · have hnocr : '\r' ∉ t := by
      intro hm
      have := hws '\r' hm (by decide)
      exact absurd this (by decide)
    have hnolf : '\n' ∉ t := by
      intro hm
      have := hws '\n' hm (by decide)
      exact absurd this (by decide)
    unfold process_output_for_message
    rw [if_neg hnil, replaceCRLF_eq_self hnocr, replaceLF_eq_self hnolf]
    unfold collapseWS
    rw [(collapseAux_eq_self t).1 hch hws]
    exact pyStrip_eq_self hhd hlt

/-! ## Properties of the fallback decoder -/

theorem isInfix_append_right {l l₂ : PyStr} (l₁ : PyStr) (h : List.IsInfix l l₂) :
    List.IsInfix l (l₁ ++ l₂) := by
  obtain ⟨s, t, hst⟩ := h
  exact ⟨l₁ ++ s, t, by rw [← hst]; simp⟩

theorem isInfix_append_left {l l₁ : PyStr} (l₂ : PyStr) (h : List.IsInfix l l₁) :
    List.IsInfix l (l₁ ++ l₂) := by
  obtain ⟨s, t, hst⟩ := h
  exact ⟨s, t ++ l₂, by rw [← hst]; simp⟩

theorem joinComma_cons_cons (s b : PyStr) (r : List PyStr) :
    joinComma (s :: b :: r) = s ++ ", ".data ++ joinComma (b :: r) := rfl

theorem isInfix_joinComma {names : List PyStr} {s : PyStr} (h : s ∈ names) :
    List.IsInfix s (joinComma names) := by
  induction names with
  | nil => cases h
  | cons a rest ih =>
    rcases List.mem_cons.mp h with rfl | h
    · cases rest with
      | nil => exact List.infix_refl _
      | cons b r =>
        rw [joinComma_cons_cons]
        exact isInfix_append_left _ (isInfix_append_left _ (List.infix_refl _))
    · cases rest with
      | nil => cases h
      | cons b r =>
        rw [joinComma_cons_cons, List.append_assoc]
        exact isInfix_append_right _ (isInfix_append_right _ (ih h))

theorem name_isInfix_decodeFailMsg {e : Codec} {encs : List Codec} (h : e ∈ encs)
    (bs : List Nat) : List.IsInfix e.name (decodeFailMsg bs encs) := by
  obtain ⟨s, t, hst⟩ := isInfix_joinComma (List.mem_map_of_mem Codec.name h)
  refine ⟨"解码失败，尝试了 ".data ++ s,
    t ++ "。原始字节前100: ".data ++ pyBytesRepr (bs.take 100) ++ "...".data, ?_⟩
  rw [decodeFailMsg, ← hst]
  simp [List.append_assoc]

theorem bytesRepr_isInfix_decodeFailMsg (bs : List Nat) (encs : List Codec) :
    List.IsInfix (pyBytesRepr (bs.take 100)) (decodeFailMsg bs encs) := by
  refine ⟨"解码失败，尝试了 ".data ++ joinComma (encs.map Codec.name) ++
    "。原始字节前100: ".data, "...".data, ?_⟩
  rw [decodeFailMsg]

theorem decode_nonempty_eq {bs : List Nat} (encs : List Codec) (h : bs ≠ []) :
    decode_with_fallback bs encs =
      match tryEncodings bs encs 0 with
      | some d => d
      | none => decodeFailMsg bs encs := by
  rw [decode_with_fallback, if_neg h]

theorem tryEncodings_zero_strict_some {bs : List Nat} {e : Codec} {d : PyStr}
    (rest : List Codec) (h : e.strict bs = some d) :
    tryEncodings bs (e :: rest) 0 = some d := by
  rw [tryEncodings, if_pos rfl, h]

theorem tryEncodings_zero_strict_none {bs : List Nat} {e : Codec}
    (rest : List Codec) (h : e.strict bs = none) :
    tryEncodings bs (e :: rest) 0 = tryEncodings bs rest 1 := by
  rw [tryEncodings, if_pos rfl, h]

theorem tryEncodings_pos_accept {bs : List Nat} {e : Codec} {i : Nat}
    (rest : List Codec) (hi : i ≠ 0)
    (h : 10 * (e.repl bs).count replacementChar ≤ (e.repl bs).length) :
    tryEncodings bs (e :: rest) i = some (e.repl bs) := by
  rw [tryEncodings, if_neg hi, if_neg]
  intro hc
  exact absurd hc.2 (by omega)

theorem tryEncodings_pos_reject {bs : List Nat} {e : Codec} {i : Nat}
    (rest : List Codec) (hi : i ≠ 0)
    (h : (e.repl bs).length < 10 * (e.repl bs).count replacementChar) :
    tryEncodings bs (e :: rest) i = tryEncodings bs rest (i + 1) := by
  have hmem : replacementChar ∈ e.repl bs := by
    rw [← List.count_pos_iff]
    omega
  rw [tryEncodings, if_neg hi, if_pos ⟨hmem, h⟩]

theorem toNat_ofNat_of_byte {b : Nat} (h : b < 256) : (Char.ofNat b).toNat = b := by
  have hv : b.isValidChar := Or.inl (by omega)
  rw [Char.ofNat, dif_pos hv]
  rfl

theorem replacementChar_not_mem_latin1 {bs : List Nat} (h : ∀ b ∈ bs, b < 256) :
    replacementChar ∉ latin1C.repl bs := by
  intro hm
  simp only [latin1C, List.mem_map] at hm
  obtain ⟨b, hb, he⟩ := hm
  have h1 : (Char.ofNat b).toNat = b := toNat_ofNat_of_byte (h b hb)
  rw [he] at h1
  have : replacementChar.toNat = 0xFFFD := by decide
  rw [this] at h1
  have := h b hb
  omega

theorem tryEncodings_latin1_last {bs : List Nat} (h : ∀ b ∈ bs, b < 256)
    (e : Codec) (i : Nat) (hi : i ≠ 0) :
    tryEncodings bs [e, latin1C] i = some (e.repl bs) ∨
      tryEncodings bs [e, latin1C] i = some (latin1C.repl bs) := by
  by_cases hacc : 10 * (e.repl bs).count replacementChar ≤ (e.repl bs).length
  · exact Or.inl (tryEncodings_pos_accept _ hi hacc)
  · right
    rw [tryEncodings_pos_reject _ hi (by omega)]
    have hcount : (latin1C.repl bs).count replacementChar = 0 :=
      List.count_eq_zero.mpr (replacementChar_not_mem_latin1 h)
    exact tryEncodings_pos_accept _ (by omega) (by rw [hcount]; simp)

/-! ## Properties of the message assembly -/

theorem joinSpace_pair (a b : PyStr) : joinSpace [a, b] = a ++ ' ' :: b := rfl

theorem headNotWS_of_head {l : PyStr} {c : Char} (hm : l.head? = some c)
    (hc : isPySpace c = false) : headNotWS l := by
  intro x hx
  rw [hm, Option.some.injEq] at hx
  rwa [← hx]

theorem lastNotWS_of_last {l : PyStr} {c : Char} (hm : l.getLast? = some c)
    (hc : isPySpace c = false) : lastNotWS l := by
  intro x hx
  rw [hm, Option.some.injEq] at hx
  rwa [← hx]

theorem assembleMessage_single (c0 cl : Char) {marker : PyStr}
    (hm : marker.head? = some c0) (hc0 : isPySpace c0 = false)
    (hlast : marker.getLast? = some cl) (hcl : isPySpace cl = false) :
    assembleMessage [marker] = marker := by
  have hne : marker ≠ [] := by
    intro h
    rw [h] at hm
    simp at hm
  unfold assembleMessage
  rw [List.filter_cons, if_pos (by simpa using hne), List.filter_nil]
  show pyStrip (joinSpace [marker]) = marker
  rw [show joinSpace [marker] = marker from rfl]
  exact pyStrip_eq_self (headNotWS_of_head hm hc0) (lastNotWS_of_last hlast hcl)

theorem assembleMessage_pair (c0 : Char) {marker p : PyStr}
    (hm : marker.head? = some c0) (hc0 : isPySpace c0 = false)
    (hl : lastNotWS p) (hp : p ≠ []) :
    assembleMessage [marker, p] = marker ++ ' ' :: p := by
  have hne : marker ≠ [] := by
    intro h
    rw [h] at hm
    simp at hm
  unfold assembleMessage
  rw [List.filter_cons, if_pos (by simpa using hne), List.filter_cons,
    if_pos (by simpa using hp), List.filter_nil, joinSpace_pair]
  apply pyStrip_eq_self
  · apply headNotWS_of_head (c := c0) _ hc0
    rw [List.head?_append, hm]
    rfl
  · intro x hx
    rw [List.getLast?_append] at hx
    cases p with
    | nil => exact absurd rfl hp
    | cons q qs =>
      rw [List.getLast?_cons_cons] at hx
      have hsome : (q :: qs).getLast?.isSome := List.getLast?_isSome.mpr (by simp)
      obtain ⟨y, hy⟩ := Option.isSome_iff_exists.mp hsome
      rw [hy] at hx
      simp only [Option.or_some, Option.some.injEq] at hx
      subst hx
      exact hl y hy

theorem replaceCRLF_cons_of_ne_cr {c : Char} (cs : PyStr) (h : c ≠ '\r') :
    ∃ t, replaceCRLF (c :: cs) = c :: t := by
  cases cs with
  | nil => exact ⟨[], rfl⟩
  | cons d rest =>
    rw [replaceCRLF, if_neg (fun hc => h hc.1)]
    exact ⟨replaceCRLF (d :: rest), rfl⟩

theorem pyStrip_cons_ne_nil {c : Char} {v : PyStr} (hc : isPySpace c = false) :
    pyStrip (c :: v) ≠ [] := by
  unfold pyStrip
  rw [List.dropWhile_cons_of_neg (by simp [hc])]
  by_cases hr : rstripFn v = []
  · rw [rstripFn_cons_of_eq_nil _ hr, if_neg (by simp [hc])]
    simp
  · rw [rstripFn_cons_of_ne_nil hr]
    simp

theorem process_output_ne_nil {c : Char} {cs : PyStr} (hc : isPySpace c = false) :
    process_output_for_message (c :: cs) ≠ [] := by
  unfold process_output_for_message
  rw [if_neg (List.cons_ne_nil _ _)]
  have hcr : c ≠ '\r' := by
    intro h
    rw [h] at hc
    exact absurd hc (by decide)
  have hlf : c ≠ '\n' := by
    intro h
    rw [h] at hc
    exact absurd hc (by decide)
  obtain ⟨t, ht⟩ := replaceCRLF_cons_of_ne_cr cs hcr
  rw [ht]
  rw [show replaceLF (c :: t) = c :: replaceLF t by
    simp only [replaceLF, List.map_cons, if_neg hlf]]
  unfold collapseWS
  rw [collapseAux_cons_not_ws hc]
  exact pyStrip_cons_ne_nil hc

/-! ## The claims -/

/-- C1: for every byte input and candidate list, `decode_with_fallback` is
total (the embedding returns a plain string, never an absent value, and no
branch can fail): empty input yields the empty string, and non-empty input
accepted by no candidate yields the diagnostic string, which contains every
attempted encoding name and the rendering of the first 100 raw bytes. -/
theorem claim_C1 :
    (∀ encodings : List Codec, decode_with_fallback [] encodings = []) ∧
      (∀ (bs : List Nat) (encodings : List Codec), bs ≠ [] →
        tryEncodings bs encodings 0 = none →
        decode_with_fallback bs encodings = decodeFailMsg bs encodings ∧
          (∀ e ∈ encodings, List.IsInfix e.name (decode_with_fallback bs encodings)) ∧
          List.IsInfix (pyBytesRepr (bs.take 100)) (decode_with_fallback bs encodings)) := by
  refine ⟨fun encs => rfl, fun bs encs hne hnone => ?_⟩
  have heq : decode_with_fallback bs encs = decodeFailMsg bs encs := by
    rw [decode_nonempty_eq encs hne, hnone]
  refine ⟨heq, fun e he => ?_, ?_⟩
  · rw [heq]
    exact name_isInfix_decodeFailMsg he bs
  · rw [heq]
    exact bytesRepr_isInfix_decodeFailMsg bs encs

/-- Witness for C1: a single strict utf-8 candidate rejects the lone byte
0xFF, so the diagnostic branch is reached and contains the name and the byte
rendering. -/
theorem claim_C1_witness :
    decode_with_fallback [0xFF] [utf8C] = decodeFailMsg [0xFF] [utf8C] ∧
      List.IsInfix utf8C.name (decode_with_fallback [0xFF] [utf8C]) ∧
      List.IsInfix (pyBytesRepr (([0xFF] : List Nat).take 100))
        (decode_with_fallback [0xFF] [utf8C]) := by
  obtain ⟨h1, h2, h3⟩ := claim_C1.2 [0xFF] [utf8C] (by decide) (by decide)
  exact ⟨h1, h2 utf8C (List.mem_cons_self _ _), h3⟩

/-- C2 as stated is refuted at a concrete input: with candidates
`[utf8C, utf8C]` and the bytes of nine ASCII letters followed by the invalid
byte 0xFF, the first candidate's strict decode fails and the second
candidate's lossy decode is accepted although its replacement-marker
fraction is exactly 10% — not below 10% as the claim requires. -/
theorem claim_C2_counterexample :
    decode_with_fallback [0x61, 0x61, 0x61, 0x61, 0x61, 0x61, 0x61, 0x61, 0x61, 0xFF]
        [utf8C, utf8C] =
      utf8C.repl [0x61, 0x61, 0x61, 0x61, 0x61, 0x61, 0x61, 0x61, 0x61, 0xFF] ∧
      10 * (utf8C.repl [0x61, 0x61, 0x61, 0x61, 0x61, 0x61, 0x61, 0x61, 0x61, 0xFF]).count
          replacementChar =
        (utf8C.repl [0x61, 0x61, 0x61, 0x61, 0x61, 0x61, 0x61, 0x61, 0x61, 0xFF]).length ∧
      replacementChar ∈ utf8C.repl [0x61, 0x61, 0x61, 0x61, 0x61, 0x61, 0x61, 0x61, 0x61, 0xFF] := by
  decide

/-- C2 (amended): for non-empty input the candidates are tried in order; the
first is decoded strictly and an invalid byte sequence advances to the next;
every later candidate is decoded lossily and accepted exactly when the
replacement markers are at most a tenth of the decoded text — the fraction
must be at most 10%, not strictly below 10% — otherwise the next candidate
is tried. The last conjunct ties the counting inequality to the fraction. -/
theorem claim_C2 :
    (∀ (bs : List Nat) (e : Codec) (rest : List Codec) (d : PyStr), bs ≠ [] →
        e.strict bs = some d → decode_with_fallback bs (e :: rest) = d) ∧
      (∀ (bs : List Nat) (e : Codec) (rest : List Codec),
        e.strict bs = none →
        tryEncodings bs (e :: rest) 0 = tryEncodings bs rest 1) ∧
      (∀ (bs : List Nat) (e : Codec) (rest : List Codec) (i : Nat), i ≠ 0 →
        (10 * (e.repl bs).count replacementChar ≤ (e.repl bs).length →
          tryEncodings bs (e :: rest) i = some (e.repl bs)) ∧
        ((e.repl bs).length < 10 * (e.repl bs).count replacementChar →
          tryEncodings bs (e :: rest) i = tryEncodings bs rest (i + 1))) ∧
      (∀ d : PyStr, d ≠ [] →
        (10 * d.count replacementChar ≤ d.length ↔
          (d.count replacementChar : ℚ) / d.length ≤ 1 / 10)) := by
  refine ⟨fun bs e rest d hne hs => ?_, fun bs e rest hs => ?_,
    fun bs e rest i hi => ⟨fun h => tryEncodings_pos_accept rest hi h,
      fun h => tryEncodings_pos_reject rest hi h⟩, fun d hd => ?_⟩
  · rw [decode_nonempty_eq _ hne, tryEncodings_zero_strict_some rest hs]
  · exact tryEncodings_zero_strict_none rest hs
  · have hlen : 0 < (d.length : ℚ) := by
      have : 0 < d.length := List.length_pos.mpr hd
      exact_mod_cast this
    rw [div_le_div_iff₀ hlen (by norm_num), one_mul]
    rw [show ((d.count replacementChar : ℚ)) * 10 =
      ((d.count replacementChar * 10 : Nat) : ℚ) by push_cast; ring]
    rw [Nat.cast_le]
    omega

/-- Witness for C2 (amended): a first-candidate strict success is returned
as is; a later candidate above the threshold is rejected and the loop moves
on; the fraction form agrees on a concrete one-letter string. -/
theorem claim_C2_witness :
    decode_with_fallback [0x41] [latin1C, utf8C] = ['A'] ∧
      tryEncodings [0xFF] [utf8C] 1 = tryEncodings ([0xFF] : List Nat) [] 2 ∧
      (10 * (['a'] : PyStr).count replacementChar ≤ (['a'] : PyStr).length ↔
        ((['a'] : PyStr).count replacementChar : ℚ) / (['a'] : PyStr).length ≤ 1 / 10) := by
  refine ⟨claim_C2.1 [0x41] latin1C [utf8C] ['A'] (by decide) (by decide),
    (claim_C2.2.2.1 [0xFF] utf8C [] 1 (by decide)).2 (by decide),
    claim_C2.2.2.2 ['a'] (by decide)⟩

/-- C3: the encoding candidate order is a function of the command text: a
command whose stripped, lowercased text begins with an HTTP-client
invocation decodes stdout universal-encoding-first, every other command
decodes stdout locale-first, and stderr is always decoded locale-first;
the curl test is exactly the stated prefix test of the command text. -/
theorem claim_C3 (gbkC : Codec) (cmd : PyStr) :
    (isCurlCommand cmd = true → stdoutEncodings gbkC cmd = [utf8C, gbkC, latin1C]) ∧
      (isCurlCommand cmd = false → stdoutEncodings gbkC cmd = [gbkC, utf8C, latin1C]) ∧
      stderrEncodings gbkC = [gbkC, utf8C, latin1C] ∧
      isCurlCommand cmd =
        (List.isPrefixOf "curl ".data ((pyStrip cmd).map pyLowerChar) ||
          List.isPrefixOf "wsl curl ".data ((pyStrip cmd).map pyLowerChar)) := by
  refine ⟨fun h => ?_, fun h => ?_, rfl, rfl⟩
  · rw [stdoutEncodings, if_pos h]
  · rw [stdoutEncodings, h]
    rfl

/-- Witness for C3: a curl command gets the universal-first order, a plain
command the locale-first order (instantiated at a concrete locale codec). -/
theorem claim_C3_witness :
    stdoutEncodings latin1C "curl http://e".data = [utf8C, latin1C, latin1C] ∧
      stdoutEncodings latin1C "dir".data = [latin1C, utf8C, latin1C] :=
  ⟨(claim_C3 latin1C "curl http://e".data).1 (by decide),
    (claim_C3 latin1C "dir".data).2.1 (by decide)⟩

/-- C8: the message normalizer is idempotent, and its output never holds two
consecutive whitespace characters nor a leading or trailing whitespace
character (the head and last character of the output, read with a
non-whitespace default, are never whitespace). -/
theorem claim_C8 (s : PyStr) :
    process_output_for_message (process_output_for_message s) =
        process_output_for_message s ∧
      List.Chain' notAdjWS (process_output_for_message s) ∧
      isPySpace ((process_output_for_message s).headD 'x') = false ∧
      isPySpace ((process_output_for_message s).getLastD 'x') = false := by
  obtain ⟨hws, hch, hhd, hlt⟩ := process_output_props s
  refine ⟨process_output_idem s, hch, ?_, ?_⟩
  · cases hl : process_output_for_message s with
    | nil => decide
    | cons c cs =>
      have := hhd c (by rw [hl, List.head?_cons])
      simpa using this
  · rw [List.getLastD_eq_getLast?]
    cases hg : (process_output_for_message s).getLast? with
    | none => decide
    | some c =>
      rw [Option.getD_some]
      exact hlt c hg

/-! ## Branch characterizations of the executor -/

theorem execute_command_invalid_dir {sys : Sys} {workdir : PyStr} (gbkC : Codec)
    (cmd : PyStr) (h : sys.isdir workdir = false) :
    execute_command sys gbkC cmd workdir =
      [("message", prepFailMsg workdir), ("log", "命令准备失败...".data)] := by
  unfold execute_command
  rw [if_pos h]

theorem execute_command_completed_zero (gbkC : Codec) {sys : Sys} {cmd workdir : PyStr}
    {outB errB : List Nat}
    (hdir : sys.isdir workdir = true)
    (hrun : sys.run ["cmd".data, "/c".data, cmd] workdir = .completed outB errB 0) :
    execute_command sys gbkC cmd workdir =
      [("message", assembleMessage ([successMarker] ++
          (if ¬ process_output_for_message
              (pyStrip (decode_with_fallback outB (stdoutEncodings gbkC cmd))) = [] then
            [process_output_for_message
              (pyStrip (decode_with_fallback outB (stdoutEncodings gbkC cmd)))]
          else []))),
        ("log", "命令执行成功".data)] := by
  unfold execute_command
  rw [if_neg (by simp [hdir]), hrun]
  rfl

theorem execute_command_completed_nonzero (gbkC : Codec) {sys : Sys} {cmd workdir : PyStr}
    {outB errB : List Nat} {rc : Int} (hrc : rc ≠ 0)
    (hdir : sys.isdir workdir = true)
    (hrun : sys.run ["cmd".data, "/c".data, cmd] workdir = .completed outB errB rc) :
    execute_command sys gbkC cmd workdir =
      [("message", assembleMessage ([failureMarker] ++
          (if ¬ process_output_for_message
              (pyStrip (decode_with_fallback errB (stderrEncodings gbkC))) = [] then
            [process_output_for_message
              (pyStrip (decode_with_fallback errB (stderrEncodings gbkC)))]
          else []))),
        ("log", "命令执行失败... 返回码: ".data ++ (toString rc).data)] := by
  unfold execute_command
  rw [if_neg (by simp [hdir]), hrun]
  show (if rc = 0 then _ else _) = _
  rw [if_neg hrc]


/-- C4 as stated is refuted: at a concrete zero-exit run the returned record
has no success field at all — looking up "success" yields nothing, while the
message (which does begin with the success marker) is under "message"; the
two-field record of this variant communicates success only via the marker. -/
theorem claim_C4_counterexample :
    (execute_command sysEcho latin1C "dir".data "C:".data).lookup "success" = none ∧
      (execute_command sysEcho latin1C "dir".data "C:".data).lookup "message" =
        some "命令执行成功... hi".data := by
  decide

/-- C4 (amended): for every command whose child exits with code 0 the
result's message begins with the fixed success marker, and equals the marker
followed by a separating space and the normalized stdout exactly when the
decoded (and stripped) stdout is non-empty; the record carries no success
flag, so success is communicated by the marker alone. -/
theorem claim_C4 (sys : Sys) (gbkC : Codec) (cmd workdir : PyStr)
    (outB errB : List Nat)
    (hdir : sys.isdir workdir = true)
    (hrun : sys.run ["cmd".data, "/c".data, cmd] workdir = .completed outB errB 0) :
    ∃ m, (execute_command sys gbkC cmd workdir).lookup "message" = some m ∧
      List.isPrefixOf successMarker m = true ∧
      (pyStrip (decode_with_fallback outB (stdoutEncodings gbkC cmd)) = [] →
        m = successMarker) ∧
      (pyStrip (decode_with_fallback outB (stdoutEncodings gbkC cmd)) ≠ [] →
        m = successMarker ++ ' ' :: process_output_for_message
          (pyStrip (decode_with_fallback outB (stdoutEncodings gbkC cmd)))) := by
  have hrec := execute_command_completed_zero gbkC hdir hrun
  by_cases hs : pyStrip (decode_with_fallback outB (stdoutEncodings gbkC cmd)) = []
  · have hpnil : process_output_for_message
        (pyStrip (decode_with_fallback outB (stdoutEncodings gbkC cmd))) = [] := by
      rw [hs]
      rfl
    rw [hpnil] at hrec
    simp only [not_true, if_neg, ite_false, List.append_nil] at hrec
    have hmsg : assembleMessage [successMarker] = successMarker :=
      assembleMessage_single '命' '.' (by decide) (by decide)
        (by decide) (by decide)
    rw [hmsg] at hrec
    refine ⟨successMarker, ?_, by decide, fun _ => rfl, fun hne => absurd hs hne⟩
    rw [hrec]
    simp [List.lookup]
  · obtain ⟨c, cs, hcons⟩ : ∃ c cs,
        pyStrip (decode_with_fallback outB (stdoutEncodings gbkC cmd)) = c :: cs := by
      cases hv : pyStrip (decode_with_fallback outB (stdoutEncodings gbkC cmd)) with
      | nil => exact absurd hv hs
      | cons c cs => exact ⟨c, cs, rfl⟩
    have hcws : isPySpace c = false :=
      headNotWS_pyStrip (decode_with_fallback outB (stdoutEncodings gbkC cmd)) c
        (by rw [hcons, List.head?_cons])
    have hpne : process_output_for_message
        (pyStrip (decode_with_fallback outB (stdoutEncodings gbkC cmd))) ≠ [] := by
      rw [hcons]
      exact process_output_ne_nil hcws
    rw [if_pos (by simpa using hpne)] at hrec
    have hmsg : assembleMessage ([successMarker] ++ [process_output_for_message
        (pyStrip (decode_with_fallback outB (stdoutEncodings gbkC cmd)))]) =
        successMarker ++ ' ' :: process_output_for_message
          (pyStrip (decode_with_fallback outB (stdoutEncodings gbkC cmd))) :=
      assembleMessage_pair '命' (by decide) (by decide)
        (process_output_props _).2.2.2 hpne
    rw [hmsg] at hrec
    refine ⟨_, ?_, ?_, fun hnil => absurd hnil hs, fun _ => rfl⟩
    · rw [hrec]
      simp [List.lookup]
    · simp

/-- C5 as stated is refuted: at a concrete nonzero-exit run the returned
record has no success field (looking up "success" yields nothing), and —
stdout and stderr being the same bytes here — the normalized stdout does
occur verbatim inside the failure message, so the literal "but not the
stdout" reading also fails; what holds is that stdout does not influence
the message (see the amended theorem). -/
theorem claim_C5_counterexample :
    (execute_command sysBoom latin1C "dir".data "C:".data).lookup "success" = none ∧
      List.IsInfix
        (process_output_for_message (pyStrip (decode_with_fallback
          [0x62, 0x6F, 0x6F, 0x6D] (stdoutEncodings latin1C "dir".data))))
        (((execute_command sysBoom latin1C "dir".data "C:".data).lookup "message").getD []) := by
  decide

/-- C5 (amended): for every command whose child exits with a nonzero code
the result's message begins with the fixed failure marker and contains the
normalized stderr (equalling marker, space, normalized stderr when the
decoded stderr is non-empty), and the stdout bytes do not influence the
result: two runs differing only in stdout produce identical records. The
record carries no success flag; failure is communicated by the marker. -/
theorem claim_C5 (sys sys' : Sys) (gbkC : Codec) (cmd workdir : PyStr)
    (outB outB' errB : List Nat) (rc : Int) (hrc : rc ≠ 0)
    (hdir : sys.isdir workdir = true) (hdir' : sys'.isdir workdir = true)
    (hrun : sys.run ["cmd".data, "/c".data, cmd] workdir = .completed outB errB rc)
    (hrun' : sys'.run ["cmd".data, "/c".data, cmd] workdir = .completed outB' errB rc) :
    ∃ m, (execute_command sys gbkC cmd workdir).lookup "message" = some m ∧
      List.isPrefixOf failureMarker m = true ∧
      List.IsInfix (process_output_for_message
        (pyStrip (decode_with_fallback errB (stderrEncodings gbkC)))) m ∧
      (pyStrip (decode_with_fallback errB (stderrEncodings gbkC)) ≠ [] →
        m = failureMarker ++ ' ' :: process_output_for_message
          (pyStrip (decode_with_fallback errB (stderrEncodings gbkC)))) ∧
      execute_command sys gbkC cmd workdir = execute_command sys' gbkC cmd workdir := by
  have hrec := execute_command_completed_nonzero gbkC hrc hdir hrun
  have hrec' := execute_command_completed_nonzero gbkC hrc hdir' hrun'
  have hsame : execute_command sys gbkC cmd workdir = execute_command sys' gbkC cmd workdir := by
    rw [hrec, hrec']
  by_cases hs : pyStrip (decode_with_fallback errB (stderrEncodings gbkC)) = []
  · have hpnil : process_output_for_message
        (pyStrip (decode_with_fallback errB (stderrEncodings gbkC))) = [] := by
      rw [hs]
      rfl
    rw [hpnil] at hrec
    simp only [not_true, if_neg, ite_false, List.append_nil] at hrec
    have hmsg : assembleMessage [failureMarker] = failureMarker :=
      assembleMessage_single '命' '.' (by decide) (by decide)
        (by decide) (by decide)
    rw [hmsg] at hrec
    refine ⟨failureMarker, ?_, by decide, ?_, fun hne => absurd hs hne, hsame⟩
    · rw [hrec]
      simp [List.lookup]
    · rw [hpnil]
      exact List.nil_infix
  · obtain ⟨c, cs, hcons⟩ : ∃ c cs,
        pyStrip (decode_with_fallback errB (stderrEncodings gbkC)) = c :: cs := by
      cases hv : pyStrip (decode_with_fallback errB (stderrEncodings gbkC)) with
      | nil => exact absurd hv hs
      | cons c cs => exact ⟨c, cs, rfl⟩
    have hcws : isPySpace c = false :=
      headNotWS_pyStrip (decode_with_fallback errB (stderrEncodings gbkC)) c
        (by rw [hcons, List.head?_cons])
    have hpne : process_output_for_message
        (pyStrip (decode_with_fallback errB (stderrEncodings gbkC))) ≠ [] := by
      rw [hcons]
      exact process_output_ne_nil hcws
    rw [if_pos (by simpa using hpne)] at hrec
    have hmsg : assembleMessage ([failureMarker] ++ [process_output_for_message
        (pyStrip (decode_with_fallback errB (stderrEncodings gbkC)))]) =
        failureMarker ++ ' ' :: process_output_for_message
          (pyStrip (decode_with_fallback errB (stderrEncodings gbkC))) :=
      assembleMessage_pair '命' (by decide) (by decide)
        (process_output_props _).2.2.2 hpne
    rw [hmsg] at hrec
    refine ⟨_, ?_, ?_, ?_, fun _ => rfl, hsame⟩
    · rw [hrec]
      simp [List.lookup]
    · simp
    · exact ⟨failureMarker ++ [' '], [], by simp⟩

/-- C6 as stated is refuted: for a nonexistent working directory the
returned record carries no exit code at all — there is neither a
"returncode" nor a "success" entry, and the digits of -1 occur nowhere in
the message or the log; the failure is communicated purely by the
preparation-failure message. -/
theorem claim_C6_counterexample :
    (execute_command sysNoDir latin1C "dir".data "X".data).lookup "returncode" = none ∧
      (execute_command sysNoDir latin1C "dir".data "X".data).lookup "success" = none ∧
      ¬ List.IsInfix "-1".data
        (((execute_command sysNoDir latin1C "dir".data "X".data).lookup "message").getD []) ∧
      ¬ List.IsInfix "-1".data
        (((execute_command sysNoDir latin1C "dir".data "X".data).lookup "log").getD []) := by
  decide

/-- C6 (amended): for every working-directory path whose directory test
fails, `execute_command` returns the fixed preparation-failure record — a
two-field record with no exit code — and never spawns a process: the result
is the same for any two oracles agreeing that the directory is invalid,
whatever their spawn behavior and whatever the locale codec. -/
theorem claim_C6 (sys sys' : Sys) (gbkC gbkC' : Codec) (cmd workdir : PyStr)
    (h : sys.isdir workdir = false) (h' : sys'.isdir workdir = false) :
    execute_command sys gbkC cmd workdir =
        [("message", prepFailMsg workdir), ("log", "命令准备失败...".data)] ∧
      execute_command sys gbkC cmd workdir = execute_command sys' gbkC' cmd workdir := by
  rw [execute_command_invalid_dir gbkC cmd h, execute_command_invalid_dir gbkC' cmd h']
  exact ⟨rfl, rfl⟩

/-- Witness for C6: at the concrete oracles whose directory test fails the
preparation-failure record is returned and coincides across different spawn
behaviors and codecs. -/
theorem claim_C6_witness :
    execute_command sysNoDir latin1C "dir".data "X".data =
        [("message", prepFailMsg "X".data), ("log", "命令准备失败...".data)] ∧
      execute_command sysNoDir latin1C "dir".data "X".data =
        execute_command sysNoDir2 utf8C "dir".data "X".data :=
  claim_C6 sysNoDir sysNoDir2 latin1C utf8C "dir".data "X".data rfl rfl

/-- C7: for every oracle behavior — invalid directory, completed child with
any exit code, interpreter not found, OS error, or unexpected error — the
pipeline returns a well-formed two-field record whose message and log are
strings, and the tool wrapper always returns the rendered string; nothing
escapes as a fault (the embedding is total, and every branch is covered by
this case analysis). -/
theorem claim_C7 :
    (∀ (sys : Sys) (gbkC : Codec) (cmd workdir : PyStr), ∃ m l,
        execute_command sys gbkC cmd workdir = [("message", m), ("log", l)]) ∧
      (∀ (sys : Sys) (gbkC : Codec) (env : Option PyStr) (command : PyStr)
        (cwd : Option PyStr), ∃ m l,
        execute sys gbkC env command cwd =
          "message=".data ++ pyRepr m ++ ", log=".data ++ pyRepr l) := by
  have h1 : ∀ (sys : Sys) (gbkC : Codec) (cmd workdir : PyStr), ∃ m l,
      execute_command sys gbkC cmd workdir = [("message", m), ("log", l)] := by
    intro sys g cmd wd
    by_cases hd : sys.isdir wd = false
    · exact ⟨_, _, execute_command_invalid_dir g cmd hd⟩
    · have hdt : sys.isdir wd = true := by
        cases hv : sys.isdir wd
        · exact absurd hv hd
        · rfl
      cases hrun : sys.run ["cmd".data, "/c".data, cmd] wd with
      | completed oB eB rc =>
        by_cases hrc : rc = 0
        · subst hrc
          exact ⟨_, _, execute_command_completed_zero g hdt hrun⟩
        · exact ⟨_, _, execute_command_completed_nonzero g hrc hdt hrun⟩
      | fileNotFound =>
        exact ⟨"命令执行失败: 找不到 'cmd' 命令！请检查系统 PATH 环境变量。".data,
          "命令执行失败... 内部错误".data,
          by unfold execute_command; rw [if_neg (by simp [hdt]), hrun]⟩
      | osError e =>
        exact ⟨"命令执行失败: OS 错误 - ".data ++ e, "命令执行失败... OS 错误".data,
          by unfold execute_command; rw [if_neg (by simp [hdt]), hrun]⟩
      | unexpectedError e =>
        exact ⟨"命令执行失败: 发生意外错误 - ".data ++ e, "命令执行失败... 意外错误".data,
          by unfold execute_command; rw [if_neg (by simp [hdt]), hrun]⟩
  refine ⟨h1, ?_⟩
  intro sys g env command cwd
  cases cwd with
  | none =>
    obtain ⟨m, l, hml⟩ := h1 sys g command (DEFAULT_WORKDIR env)
    refine ⟨m, l, ?_⟩
    show renderResult (execute_command sys g command (DEFAULT_WORKDIR env)) = _
    rw [hml]
    simp [renderResult, List.lookup]
  | some s =>
    obtain ⟨m, l, hml⟩ := h1 sys g command (if s = [] then DEFAULT_WORKDIR env else s)
    refine ⟨m, l, ?_⟩
    show renderResult (execute_command sys g command
      (if s = [] then DEFAULT_WORKDIR env else s)) = _
    rw [hml]
    simp [renderResult, List.lookup]

/-- C9: an omitted or empty `cwd` sends the command to the process-wide
default working directory; the default is the environment variable's value
when that is non-empty and the hard-coded fallback path when the variable
is unset or empty. -/
theorem claim_C9 (sys : Sys) (gbkC : Codec) (env : Option PyStr) (command : PyStr) :
    execute sys gbkC env command none =
        renderResult (execute_command sys gbkC command (DEFAULT_WORKDIR env)) ∧
      execute sys gbkC env command (some []) =
        renderResult (execute_command sys gbkC command (DEFAULT_WORKDIR env)) ∧
      DEFAULT_WORKDIR none = "D:\\Sandbox".data ∧
      DEFAULT_WORKDIR (some []) = "D:\\Sandbox".data ∧
      ∀ s : PyStr, s ≠ [] → DEFAULT_WORKDIR (some s) = s := by
  refine ⟨rfl, ?_, rfl, rfl, fun s hs => ?_⟩
  · show renderResult (execute_command sys gbkC command
      (if ([] : PyStr) = [] then DEFAULT_WORKDIR env else [])) = _
    rw [if_pos rfl]
  · show (if s = [] then "D:\\Sandbox".data else s) = s
    rw [if_neg hs]

/-- Witness for C9: with the variable unset the fallback path is used, and a
non-empty variable value is used verbatim. -/
theorem claim_C9_witness :
    execute sysNoDir latin1C none "dir".data none =
        renderResult (execute_command sysNoDir latin1C "dir".data (DEFAULT_WORKDIR none)) ∧
      DEFAULT_WORKDIR (some "E:".data) = "E:".data :=
  ⟨(claim_C9 sysNoDir latin1C none "dir".data).1,
    (claim_C9 sysNoDir latin1C (some "E:".data) "dir".data).2.2.2.2 "E:".data (by decide)⟩

/-- Both call-site candidate lists end in latin-1, which in lossy mode
decodes every byte and produces no replacement marker, so some candidate is
always accepted. -/
theorem tryEncodings_three_latin1 {bs : List Nat} (h : ∀ b ∈ bs, b < 256)
    (e1 e2 : Codec) : ∃ d, tryEncodings bs [e1, e2, latin1C] 0 = some d := by
  cases hs : e1.strict bs with
  | some d => exact ⟨d, tryEncodings_zero_strict_some _ hs⟩
  | none =>
    rw [tryEncodings_zero_strict_none _ hs]
    by_cases hacc : 10 * (e2.repl bs).count replacementChar ≤ (e2.repl bs).length
    · exact ⟨e2.repl bs, tryEncodings_pos_accept _ (by omega) hacc⟩
    · rw [tryEncodings_pos_reject _ (by omega) (by omega)]
      have hcount : (latin1C.repl bs).count replacementChar = 0 :=
        List.count_eq_zero.mpr (replacementChar_not_mem_latin1 h)
      exact ⟨latin1C.repl bs, tryEncodings_pos_accept _ (by omega) (by rw [hcount]; simp)⟩

/-- C10 (implicit): for every non-empty byte input, both call sites pass a
candidate list whose last element is latin-1, whose lossy decode never
produces a replacement marker; hence the exhaustion diagnostic of
`decode_with_fallback` is unreachable at the call sites — some candidate is
always accepted, for stdout under either command shape and for stderr. -/
theorem claim_C10 (gbkC : Codec) (cmd : PyStr) (bs : List Nat)
    (hne : bs ≠ []) (hbytes : ∀ b ∈ bs, b < 256) :
    (∃ d, tryEncodings bs (stdoutEncodings gbkC cmd) 0 = some d ∧
        decode_with_fallback bs (stdoutEncodings gbkC cmd) = d) ∧
      ∃ d, tryEncodings bs (stderrEncodings gbkC) 0 = some d ∧
        decode_with_fallback bs (stderrEncodings gbkC) = d := by
  constructor
  · rw [stdoutEncodings]
    by_cases hic : isCurlCommand cmd = true
    · rw [if_pos hic]
      obtain ⟨d, hd⟩ := tryEncodings_three_latin1 hbytes utf8C gbkC
      exact ⟨d, hd, by rw [decode_nonempty_eq _ hne, hd]⟩
    · rw [if_neg hic]
      obtain ⟨d, hd⟩ := tryEncodings_three_latin1 hbytes gbkC utf8C
      exact ⟨d, hd, by rw [decode_nonempty_eq _ hne, hd]⟩
  · obtain ⟨d, hd⟩ := tryEncodings_three_latin1 hbytes gbkC utf8C
    refine ⟨d, ?_, ?_⟩
    · rw [show stderrEncodings gbkC = [gbkC, utf8C, latin1C] from rfl]
      exact hd
    · rw [decode_nonempty_eq _ hne,
        show stderrEncodings gbkC = [gbkC, utf8C, latin1C] from rfl, hd]

/-- Witness for C10 at a concrete byte list, command and locale codec. -/
theorem claim_C10_witness :
    (∃ d, tryEncodings [0x41] (stdoutEncodings utf8C "dir".data) 0 = some d ∧
        decode_with_fallback [0x41] (stdoutEncodings utf8C "dir".data) = d) ∧
      ∃ d, tryEncodings [0x41] (stderrEncodings utf8C) 0 = some d ∧
        decode_with_fallback [0x41] (stderrEncodings utf8C) = d :=
  claim_C10 utf8C "dir".data [0x41] (by decide) (by decide)



/-- Witness for C4 (amended) at a concrete oracle: a zero-exit run with
stdout bytes of "hi". -/
theorem claim_C4_witness :
    ∃ m, (execute_command sysEcho latin1C "dir".data "C:".data).lookup "message" = some m ∧
      List.isPrefixOf successMarker m = true ∧
      (pyStrip (decode_with_fallback [0x68, 0x69] (stdoutEncodings latin1C "dir".data)) = [] →
        m = successMarker) ∧
      (pyStrip (decode_with_fallback [0x68, 0x69] (stdoutEncodings latin1C "dir".data)) ≠ [] →
        m = successMarker ++ ' ' :: process_output_for_message
          (pyStrip (decode_with_fallback [0x68, 0x69] (stdoutEncodings latin1C "dir".data)))) :=
  claim_C4 sysEcho latin1C "dir".data "C:".data [0x68, 0x69] [] rfl rfl

/-- Witness for C5 (amended) at concrete oracles: two nonzero-exit runs with
the same stderr bytes of "boom" and different stdout bytes. -/
theorem claim_C5_witness :
    ∃ m, (execute_command sysBoom latin1C "dir".data "C:".data).lookup "message" = some m ∧
      List.isPrefixOf failureMarker m = true ∧
      List.IsInfix (process_output_for_message
        (pyStrip (decode_with_fallback [0x62, 0x6F, 0x6F, 0x6D] (stderrEncodings latin1C)))) m ∧
      (pyStrip (decode_with_fallback [0x62, 0x6F, 0x6F, 0x6D] (stderrEncodings latin1C)) ≠ [] →
        m = failureMarker ++ ' ' :: process_output_for_message
          (pyStrip (decode_with_fallback [0x62, 0x6F, 0x6F, 0x6D] (stderrEncodings latin1C)))) ∧
      execute_command sysBoom latin1C "dir".data "C:".data =
        execute_command sysBoom2 latin1C "dir".data "C:".data :=
  claim_C5 sysBoom sysBoom2 latin1C "dir".data "C:".data
    [0x62, 0x6F, 0x6F, 0x6D] [0x7A] [0x62, 0x6F, 0x6F, 0x6D] 1 (by decide) rfl rfl rfl rfl



/-- Witness for C7 at a concrete oracle and inputs. -/
theorem claim_C7_witness :
    (∃ m l, execute_command sysEcho latin1C "dir".data "C:".data =
        [("message", m), ("log", l)]) ∧
      ∃ m l, execute sysEcho latin1C none "dir".data none =
        "message=".data ++ pyRepr m ++ ", log=".data ++ pyRepr l :=
  ⟨claim_C7.1 sysEcho latin1C "dir".data "C:".data,
    claim_C7.2 sysEcho latin1C none "dir".data none⟩

/-- Witness for C8 at a concrete string with mixed whitespace. -/
theorem claim_C8_witness :
    process_output_for_message (process_output_for_message " a \r\n b ".data) =
        process_output_for_message " a \r\n b ".data ∧
      List.Chain' notAdjWS (process_output_for_message " a \r\n b ".data) ∧
      isPySpace ((process_output_for_message " a \r\n b ".data).headD 'x') = false ∧
      isPySpace ((process_output_for_message " a \r\n b ".data).getLastD 'x') = false :=
  claim_C8 " a \r\n b ".data


end CmdExec
